import Mathlib

/-!
Verification of the schema-definition / compilation / validation / rendering
core of the legal-mvp repository, shallowly embedded from `src/iterator.py`
and of the batch pipeline embedded from `src/summarize.py`.

The embedding conventions:
* Python `dict`s (insertion ordered) become association lists
  `List (String × α)`; `d[k] = v` becomes `dictInsert`, which replaces the
  value in place when the key exists (keeping its position) and appends
  otherwise, exactly like a CPython dict.
* The field-definition dictionaries built by the Streamlit UI
  (`{'id': .., 'name': .., 'type': .., 'allow_multiple': .., 'sub_fields': ..}`)
  become the inductive `SchemaNode`.
* The pydantic machinery (`create_model`, `Model(**raw)`) is third-party
  library code; its documented default behaviour is embedded directly:
  a field declared `(Optional[T], None)` accepts an absent key or an explicit
  null as `None`, extra keys of the raw value are ignored, a `str` field
  accepts a JSON string, an `int` field a JSON integer, `List[T]` a JSON
  array of `T`s, and a nested model a JSON object validated recursively.
  Failure detail (pydantic collects a list of errors) is abstracted to
  `Option`: `none` means validation raised `ValidationError`.
-/

/-- The four options of the UI type selectbox `['文字', '日期', '數字', '物件 (Object)']`
in `render_fields_recursively` (iterator.py line 38). -/
inductive FieldKind where
  | text
  | date
  | number
  | object
deriving DecidableEq, Repr

/-- One field-definition dictionary of the UI tree: iterator.py builds
`{'id': .., 'name': .., 'type': .., 'allow_multiple': .., 'sub_fields': {}}`
(lines 51, 126-132, 160). `sub_fields` is an insertion-ordered mapping from
identifier to child node. -/
inductive SchemaNode where
  | mk (id : String) (name : String) (type : FieldKind) (allow_multiple : Bool)
      (sub_fields : List (String × SchemaNode))

/-- Accessor for the `id` entry of a field dictionary. -/
def SchemaNode.id : SchemaNode → String
  | SchemaNode.mk i _ _ _ _ => i

/-- Accessor for the `name` entry of a field dictionary. -/
def SchemaNode.name : SchemaNode → String
  | SchemaNode.mk _ n _ _ _ => n

/-- Accessor for the `type` entry of a field dictionary. -/
def SchemaNode.type : SchemaNode → FieldKind
  | SchemaNode.mk _ _ t _ _ => t

/-- Accessor for the `allow_multiple` entry of a field dictionary. -/
def SchemaNode.allow_multiple : SchemaNode → Bool
  | SchemaNode.mk _ _ _ a _ => a

/-- Accessor for the `sub_fields` entry of a field dictionary. -/
def SchemaNode.sub_fields : SchemaNode → List (String × SchemaNode)
  | SchemaNode.mk _ _ _ _ s => s

/-- CPython dict assignment `d[k] = v` on an insertion-ordered mapping: an
existing key keeps its position and gets the new value, a new key is appended. -/
def dictInsert : List (String × α) → String → α → List (String × α)
  | [], k, v => [(k, v)]
  | (k2, v2) :: rest, k, v =>
      if k2 = k then (k, v) :: rest else (k2, v2) :: dictInsert rest k v

/-- CPython dict lookup `d.get(k)` on an insertion-ordered mapping. -/
def lookupKey (k : String) : List (String × α) → Option α
  | [] => none
  | (k2, v) :: rest => if k2 = k then some v else lookupKey k rest

/-- The in-place UI edit of a node's type, iterator.py line 39:
`field_data['type'] = cols[1].selectbox(...)`. Only the `type` entry of the
dictionary is assigned; in particular `sub_fields` is not touched by the
assignment, whichever way the type changes. -/
def updateFieldType : SchemaNode → FieldKind → SchemaNode
  | SchemaNode.mk i n _ a s, newType => SchemaNode.mk i n newType a s

/-- The root-level add-field handler, iterator.py lines 158-161:
`new_field_id = str(uuid.uuid4())` then
`st.session_state.fields[new_field_id] = {'id': new_sub_field_id, 'name': '',
'type': '文字', 'allow_multiple': False, 'sub_fields': {}}`.
The name `new_sub_field_id` is only ever assigned inside the function body of
`render_fields_recursively` (line 50), so at module scope, where this handler
runs, it is unbound; the `bound_new_sub_field_id` argument models the
surrounding scope (`none` = the name is not defined, which is the state the
script is actually in when the button is pressed). Evaluating an unbound name
raises `NameError`, modelled as the error branch. -/
def addRootField (bound_new_sub_field_id : Option String) (new_field_id : String)
    (fields : List (String × SchemaNode)) : Except String (List (String × SchemaNode)) :=
  match bound_new_sub_field_id with
  | none => Except.error "NameError: name new_sub_field_id is not defined"
  | some nsf =>
      Except.ok (dictInsert fields new_field_id (SchemaNode.mk nsf "" FieldKind.text false []))

/-- The structural type of one compiled pydantic field. `model` carries the
model name `create_model` received and the ordered field definitions; every
field of a compiled model is `(Optional[T], None)` (iterator.py line 71), so
optionality is part of the validation semantics below rather than of the type. -/
inductive FieldType where
  | str
  | int
  | list (t : FieldType)
  | model (name : String) (fields : List (String × FieldType))

/-- The primitive lookup `type_mapping = {'文字': str, '日期': str, '數字': int}`
with the `.get(field_type_str, str)` default of iterator.py lines 59 and 69. -/
def type_mapping : FieldKind → FieldType
  | FieldKind.text => FieldType.str
  | FieldKind.date => FieldType.str
  | FieldKind.number => FieldType.int
  | FieldKind.object => FieldType.str

mutual

/-- The type computed for one named node by the loop body of
`generate_pydantic_model` (iterator.py lines 63-70): an object node becomes a
nested model named `f"{model_name}_{field_name}"` compiled from its
`sub_fields`; otherwise `type_mapping` applies; `allow_multiple` wraps the
result in `List[...]`. -/
def compiledFieldType (model_name : String) : SchemaNode → FieldType
  | SchemaNode.mk _ nm tp am sf =>
      let ft :=
        if tp = FieldKind.object then
          FieldType.model (model_name ++ "_" ++ nm) (genFieldDefs (model_name ++ "_" ++ nm) [] sf)
        else type_mapping tp
      if am then FieldType.list ft else ft

/-- The `field_definitions` dictionary built by the loop of
`generate_pydantic_model` (iterator.py lines 58-71): nodes are visited in
insertion order, a node whose `name` is falsy (the empty string) is skipped by
`if not field_name: continue` (line 62), and each kept node is written into
the dictionary under its name (`field_definitions[field_name] = ...`, line 71),
so a repeated name overwrites the earlier value in place. `acc` is the
dictionary built so far. -/
def genFieldDefs (model_name : String) (acc : List (String × FieldType)) :
    List (String × SchemaNode) → List (String × FieldType)
  | [] => acc
  | (_, fd) :: rest =>
      if fd.name = "" then genFieldDefs model_name acc rest
      else genFieldDefs model_name (dictInsert acc fd.name (compiledFieldType model_name fd)) rest

end

/-- iterator.py lines 54-72: compile a schema dictionary into the pydantic
model `create_model(model_name, **field_definitions)`. -/
def generate_pydantic_model (model_name : String)
    (schema_fields : List (String × SchemaNode)) : FieldType :=
  FieldType.model model_name (genFieldDefs model_name [] schema_fields)

/-- A parsed JSON value, the shape `json.loads` returns. -/
inductive JValue where
  | str (s : String)
  | num (n : Int)
  | bool (b : Bool)
  | null
  | arr (xs : List JValue)
  | obj (kvs : List (String × JValue))

/-- Whether a value is a mapping, `isinstance(value, dict)`. -/
def JValue.isDict : JValue → Bool
  | JValue.obj _ => true
  | _ => false

mutual

/-- Pydantic validation of one raw value against one declared type, default
(lax) mode: a `str` field takes a JSON string, an `int` field a JSON integer,
`List[T]` a JSON array whose items all validate against `T`, a nested model a
JSON object validated field by field; any other combination raises.
`none` = a `ValidationError` is raised (iterator.py line 204 wraps the raw
response in `DynamicPydanticModel(**st.session_state.raw_json_output)`). -/
def validateType : FieldType → JValue → Option JValue
  | FieldType.str, JValue.str s => some (JValue.str s)
  | FieldType.int, JValue.num n => some (JValue.num n)
  | FieldType.list t, JValue.arr xs => (validateList t xs).map JValue.arr
  | FieldType.model _ fs, JValue.obj kvs => (validateFields fs kvs).map JValue.obj
  | _, _ => none

/-- Pydantic validation of the items of a `List[T]` value, in order. -/
def validateList : FieldType → List JValue → Option (List JValue)
  | _, [] => some []
  | t, v :: vs =>
      match validateType t v with
      | none => none
      | some v2 =>
          match validateList t vs with
          | none => none
          | some vs2 => some (v2 :: vs2)

/-- Pydantic validation of one `(Optional[T], None)` field against the raw
mapping: an absent key or an explicit null becomes `None`; a present non-null
value must validate against `T`. -/
def fieldResult (t : FieldType) : Option JValue → Option JValue
  | none => some JValue.null
  | some JValue.null => some JValue.null
  | some v => validateType t v

/-- Pydantic validation of a raw mapping against a model's ordered field
definitions: each declared field is looked up by name in the raw mapping and
validated as `(Optional[T], None)`; keys of the raw mapping that name no
declared field are never consulted (pydantic's default `extra` behaviour is to
ignore them). The result, on success, is the validated mapping in declared
field order — the shape `model_dump()` later walks. -/
def validateFields :
    List (String × FieldType) → List (String × JValue) → Option (List (String × JValue))
  | [], _ => some []
  | (n, t) :: rest, kvs =>
      match fieldResult t (lookupKey n kvs) with
      | none => none
      | some v2 => (validateFields rest kvs).map (fun r => (n, v2) :: r)

end

/-- One display instruction emitted by `render_results_dynamically`
(iterator.py lines 74-87): a `st.subheader` title, the `st.write("_(無資料)_")`
placeholder for an empty list, a `st.dataframe` table, one `st.markdown` list
bullet, a bordered `st.container` wrapping a recursively rendered mapping, or
a plain `st.write` of a scalar. -/
inductive RenderNode where
  | subheader (k : String)
  | emptyNote
  | table (rows : List JValue)
  | bullet (item : JValue)
  | panel (children : List RenderNode)
  | write (v : JValue)

mutual

/-- iterator.py lines 78-87: for each key of the mapping, a subheader followed
by the rendering of its value. -/
def render_results_dynamically : List (String × JValue) → List RenderNode
  | [] => []
  | (k, v) :: rest =>
      RenderNode.subheader k :: (renderValue v ++ render_results_dynamically rest)

/-- iterator.py lines 80-87, the per-value branch: an empty list gives the
`_(無資料)_` placeholder; a non-empty list gives a dataframe when its first
element (`value[0]`) is a mapping and one markdown bullet per item otherwise;
a mapping gives a bordered container around its recursive rendering; anything
else is written as-is. -/
def renderValue : JValue → List RenderNode
  | JValue.arr [] => [RenderNode.emptyNote]
  | JValue.arr (v :: vs) =>
      if v.isDict then [RenderNode.table (v :: vs)]
      else (v :: vs).map RenderNode.bullet
  | JValue.obj kvs => [RenderNode.panel (render_results_dynamically kvs)]
  | v => [RenderNode.write v]

end

/-- Number of leading dot characters of a file name. -/
def leadingDots : List Char → Nat
  | c :: rest => if c = '.' then leadingDots rest + 1 else 0
  | [] => 0

/-- Index of the last dot character of a file name, when one exists. -/
def lastDotIndex : List Char → Option Nat
  | [] => none
  | c :: rest =>
      match lastDotIndex rest with
      | some i => some (i + 1)
      | none => if c = '.' then some 0 else none

/-- Embeds `os.path.basename`: the part of the path after the last slash. -/
def pathBase (p : String) : String :=
  (p.splitOn "/").getLastD p

/-- Embeds `os.path.splitext(name)[0]` on a bare file name: cut at the last dot,
except that the leading dots of the name never start an extension. -/
def splitextStem (name : String) : String :=
  let cs := name.toList
  match lastDotIndex cs with
  | some i => if leadingDots cs ≤ i then String.mk (cs.take i) else name
  | none => name

/-- summarize.py line 116: `base_name = os.path.splitext(os.path.basename(txt_path))[0]`. -/
def base_name (txt_path : String) : String :=
  splitextStem (pathBase txt_path)

/-- Required-string check for one field of `AnalyzedDecisionMVP` /
`LegalHoldingMVP` (summarize.py lines 15-28: every field is declared with
`Field(...)`, so it must be present and of its declared type). -/
def requiredStr (n : String) (kvs : List (String × JValue)) : Bool :=
  match lookupKey n kvs with
  | some (JValue.str _) => true
  | _ => false

/-- The `List[str]` check for `factual_issues`. -/
def isStrList : JValue → Bool
  | JValue.arr xs =>
      xs.all fun v =>
        match v with
        | JValue.str _ => true
        | _ => false
  | _ => false

/-- One element of `legal_holdings`: the `LegalHoldingMVP` model
(summarize.py lines 15-19), three required string fields. -/
def isHolding : JValue → Bool
  | JValue.obj kvs =>
      requiredStr "category" kvs && requiredStr "granularity" kvs && requiredStr "text" kvs
  | _ => false

/-- Pydantic validation `AnalyzedDecisionMVP(**data)` (summarize.py line 114,
model at lines 21-28): all six fields required, extras ignored. -/
def validateAnalyzedDecisionMVP : JValue → Bool
  | JValue.obj kvs =>
      requiredStr "url" kvs && requiredStr "case_number" kvs &&
      requiredStr "case_reason" kvs && requiredStr "summary" kvs &&
      (match lookupKey "factual_issues" kvs with
       | some v => isStrList v
       | none => false) &&
      (match lookupKey "legal_holdings" kvs with
       | some (JValue.arr xs) => xs.all isHolding
       | _ => false)
  | _ => false

/-- The external effects one batch record meets, summarize.py lines 94-131:
`path` is `txt_path`; `readResult` is `some (url, content)` when the file
opens and reads (the first line already `.strip()`ed), `none` when opening
raises; `gptResponse` is what `call_gpt4` returns (`none` when it caught an
API error); `parseResult` is what `json.loads` would give on that response
(`none` = `json.JSONDecodeError`). -/
structure RecordEnv where
  path : String
  readResult : Option (String × String)
  gptResponse : Option String
  parseResult : Option JValue

/-- The body of the per-record `try` block of summarize.py lines 96-129, as
one record's outcome: `Except.error` carries the message printed by the
matching `except`/skip branch (exception payloads elided), `Except.ok` the
validated record that line 120 writes out. The branches, in source order:
unreadable file (generic `except Exception`, line 128); empty URL or body
(lines 101-103); missing or empty generation response (`if not gpt_output`,
lines 107-109); unparseable JSON (lines 124-125); `data['url'] = url` on a
non-mapping (a `TypeError`, caught by the generic `except`); validation error
(lines 126-127). -/
def processRecord (e : RecordEnv) : Except String JValue :=
  match e.readResult with
  | none => Except.error "處理檔案時發生未預期的錯誤"
  | some (url, content) =>
      if url = "" ∨ content = "" then
        Except.error ("警告：" ++ e.path ++ " 的 URL 或內容為空，跳過處理。")
      else
        match e.gptResponse with
        | none => Except.error "錯誤：從 OpenAI 未收到回應，處理失敗。"
        | some s =>
            if s = "" then Except.error "錯誤：從 OpenAI 未收到回應，處理失敗。"
            else
              match e.parseResult with
              | none => Except.error "JSON 解析錯誤"
              | some (JValue.obj kvs) =>
                  let data := dictInsert kvs "url" (JValue.str url)
                  if validateAnalyzedDecisionMVP (JValue.obj data) then
                    Except.ok (JValue.obj data)
                  else Except.error "Pydantic 驗證錯誤"
              | some _ => Except.error "處理檔案時發生未預期的錯誤"

/-- summarize.py line 95: the banner printed before each record. -/
def startLine (e : RecordEnv) : String :=
  "--- 開始處理 " ++ e.path ++ " ---"

/-- summarize.py line 131: the banner the `finally` block prints after each
record, failed or not. -/
def endLine (e : RecordEnv) : String :=
  "--- 完成處理 " ++ e.path ++ " ---"

/-- Everything the loop prints for one record: the start banner, then either
the success message naming the output file (line 122) or the failure message,
then the `finally` banner. -/
def recordLog (e : RecordEnv) : List String :=
  startLine e ::
    ((match processRecord e with
      | Except.ok _ => ["成功儲存分析結果至 corpus/summary/" ++ base_name e.path ++ ".json"]
      | Except.error m => [m]) ++ [endLine e])

/-- The files the batch run writes, one per successfully processed record, in
record order: summarize.py lines 116-120 write the validated record to
`corpus/summary/{base_name}.json`. -/
def mainOutputs : List RecordEnv → List (String × JValue)
  | [] => []
  | e :: es =>
      match processRecord e with
      | Except.ok v => (base_name e.path, v) :: mainOutputs es
      | Except.error _ => mainOutputs es

/-- Everything the batch loop prints, record by record. -/
def mainLogs : List RecordEnv → List String
  | [] => []
  | e :: es => recordLog e ++ mainLogs es

/-- A concrete object node with one child, for the C1 counterexample. -/
def objectWithChild : SchemaNode :=
  SchemaNode.mk "p1" "parent" FieldKind.object false
    [("c1", SchemaNode.mk "c1" "child" FieldKind.text false [])]

/-- C1 counterexample: an Object node with one child, after the UI edit that
switches its kind to Text, still carries its child in `sub_fields` — the
children mapping is not emptied, so the switch away from Object does not drop
the children. -/
theorem updateFieldType_keeps_children_cex :
    objectWithChild.type = FieldKind.object ∧
    (updateFieldType objectWithChild FieldKind.text).sub_fields =
      [("c1", SchemaNode.mk "c1" "child" FieldKind.text false [])] ∧
    (updateFieldType objectWithChild FieldKind.text).sub_fields ≠ [] :=
  ⟨rfl, rfl, List.cons_ne_nil _ _⟩

/-- C1 amended: switching a node's kind (in any direction) changes exactly the
`type` entry of the field dictionary and leaves `sub_fields` — and every other
entry — unchanged; in particular a node whose children are already empty keeps
empty children across any sequence of kind switches, but a node with children
keeps them too. -/
theorem updateFieldType_children_unchanged (n : SchemaNode) (k : FieldKind) :
    (updateFieldType n k).type = k ∧
    (updateFieldType n k).sub_fields = n.sub_fields ∧
    (updateFieldType n k).name = n.name ∧
    (updateFieldType n k).id = n.id ∧
    (updateFieldType n k).allow_multiple = n.allow_multiple := by
  cases n
  exact ⟨rfl, rfl, rfl, rfl, rfl⟩

/-- C2: pressing the root-level add-field button runs with no binding for
`new_sub_field_id` in scope, so whatever fresh identifier was just generated
and whatever the current tree is, the handler raises `NameError` and returns
no updated tree: it never appends a node. -/
theorem addRootField_raises_name_error (new_field_id : String)
    (fields : List (String × SchemaNode)) :
    addRootField none new_field_id fields =
      Except.error "NameError: name new_sub_field_id is not defined" :=
  rfl

/-- C7 amended: for a non-empty sequence the tabular/bulleted decision is made
from the first element alone (`value[0]`): a dataframe when it is a mapping,
one bullet per item otherwise. Consequently a sequence whose elements are all
mappings renders as a table and a sequence with no mapping renders as bullets,
but a mixed sequence is classified only by its head. -/
theorem renderValue_seq_decided_by_first (v : JValue) (vs : List JValue) :
    renderValue (JValue.arr (v :: vs)) =
      (if v.isDict then [RenderNode.table (v :: vs)] else (v :: vs).map RenderNode.bullet) ∧
    ((∀ x ∈ v :: vs, x.isDict = true) →
      renderValue (JValue.arr (v :: vs)) = [RenderNode.table (v :: vs)]) ∧
    ((∀ x ∈ v :: vs, x.isDict = false) →
      renderValue (JValue.arr (v :: vs)) = (v :: vs).map RenderNode.bullet) := by
  refine ⟨by simp [renderValue], ?_, ?_⟩
  · intro h
    have hv : v.isDict = true := h v (List.mem_cons_self v vs)
    simp [renderValue, hv]
  · intro h
    have hv : v.isDict = false := h v (List.mem_cons_self v vs)
    simp [renderValue, hv]

/-- C7 counterexample: the sequence `[{}, "x"]` is not a sequence whose
elements are all mappings, yet it renders as a table; the sequence `["x"]`,
which equally fails the all-mappings test, renders as bullets. The tabular
decision is therefore not a property of all elements of the sequence. -/
theorem renderValue_mixed_seq_cex :
    renderValue (JValue.arr [JValue.obj [], JValue.str "x"]) =
      [RenderNode.table [JValue.obj [], JValue.str "x"]] ∧
    (JValue.str "x").isDict = false ∧
    renderValue (JValue.arr [JValue.str "x"]) = [RenderNode.bullet (JValue.str "x")] := by
  refine ⟨by simp [renderValue, JValue.isDict], rfl, by simp [renderValue, JValue.isDict]⟩

/-- C8 counterexample: a field holding an empty mapping renders as a title and
an empty bordered panel; the plan is exactly these two instructions, and
neither is the empty placeholder, so the placeholder is omitted for empty
mappings. -/
theorem empty_mapping_no_placeholder_cex :
    render_results_dynamically [("a", JValue.obj [])] =
      [RenderNode.subheader "a", RenderNode.panel []] ∧
    RenderNode.subheader "a" ≠ RenderNode.emptyNote ∧
    RenderNode.panel [] ≠ RenderNode.emptyNote := by
  refine ⟨by simp [render_results_dynamically, renderValue], by simp, by simp⟩

/-- C8 amended: the renderer emits the explicit `_(無資料)_` placeholder for
every empty sequence it encounters; an empty mapping instead yields a bordered
panel with no children (no placeholder instruction). -/
theorem render_empty_values (k : String) (rest : List (String × JValue)) :
    renderValue (JValue.arr []) = [RenderNode.emptyNote] ∧
    renderValue (JValue.obj []) = [RenderNode.panel []] ∧
    render_results_dynamically ((k, JValue.arr []) :: rest) =
      RenderNode.subheader k :: RenderNode.emptyNote :: render_results_dynamically rest := by
  refine ⟨by simp [renderValue], by simp [renderValue, render_results_dynamically], ?_⟩
  simp [render_results_dynamically, renderValue]

/-- C9: batch processing is per-record independent. For any first record and
any tail: the log always contains the banner naming the first record's source
path; the whole log is the first record's log followed, unchanged, by the log
of the remaining records; and the files written are the remaining records'
files, unchanged, preceded by the first record's output exactly when it
succeeded — named by the source file's base name. A failing first record thus
never blocks a later record, and every success is persisted under its own
source's base name. -/
theorem batch_records_independent (e : RecordEnv) (es : List RecordEnv) :
    startLine e ∈ mainLogs (e :: es) ∧
    mainLogs (e :: es) = recordLog e ++ mainLogs es ∧
    mainOutputs (e :: es) =
      (match processRecord e with
       | Except.ok v => [(base_name e.path, v)]
       | Except.error _ => []) ++ mainOutputs es := by
  refine ⟨by simp [mainLogs, recordLog], rfl, ?_⟩
  cases h : processRecord e <;> simp [mainOutputs, h]

/-- An absent key always validates to `None`. -/
theorem fieldResult_none_arg (t : FieldType) : fieldResult t none = some JValue.null := by
  simp [fieldResult]

/-- A declared field's validation fails exactly when the raw mapping holds a
present, non-null value for it that fails its declared type. -/
theorem fieldResult_none_iff (t : FieldType) (ov : Option JValue) :
    fieldResult t ov = none ↔
      ∃ v, ov = some v ∧ v ≠ JValue.null ∧ validateType t v = none := by
  cases ov with
  | none => simp [fieldResult]
  | some v => cases v <;> simp [fieldResult]

/-- C4: in any compiled model every field is `(Optional[T], None)`, so a field
absent from the raw value never produces a validation failure — any failure is
caused by some declared field that is present with a non-null, ill-typed
value — and on success every absent field is recorded as null in the validated
value, position for position. -/
theorem validateFields_optional (fs : List (String × FieldType))
    (kvs : List (String × JValue)) :
    (validateFields fs kvs = none →
      ∃ n t v, (n, t) ∈ fs ∧ lookupKey n kvs = some v ∧ v ≠ JValue.null ∧
        validateType t v = none) ∧
    (∀ out, validateFields fs kvs = some out →
      List.Forall₂
        (fun f o => f.1 = o.1 ∧ (lookupKey f.1 kvs = none → o.2 = JValue.null)) fs out) := by
  induction fs with
  | nil =>
      refine ⟨fun h => ?_, fun out h => ?_⟩
      · simp [validateFields] at h
      · simp [validateFields] at h
        subst h
        exact List.Forall₂.nil
  | cons p rest ih =>
      obtain ⟨n, t⟩ := p
      refine ⟨fun h => ?_, fun out h => ?_⟩
      · cases hf : fieldResult t (lookupKey n kvs) with
        | none =>
            obtain ⟨v, hv, hnn, hvt⟩ := (fieldResult_none_iff t _).1 hf
            exact ⟨n, t, v, List.mem_cons_self _ _, hv, hnn, hvt⟩
        | some v2 =>
            rw [validateFields, hf] at h
            have hrest : validateFields rest kvs = none := by
              cases hr : validateFields rest kvs with
              | none => rfl
              | some r => rw [hr] at h; simp at h
            obtain ⟨n2, t2, v, hmem, h1, h2, h3⟩ := ih.1 hrest
            exact ⟨n2, t2, v, List.mem_cons_of_mem _ hmem, h1, h2, h3⟩
      · rw [validateFields] at h
        cases hf : fieldResult t (lookupKey n kvs) with
        | none => rw [hf] at h; simp at h
        | some v2 =>
            rw [hf] at h
            cases hr : validateFields rest kvs with
            | none => rw [hr] at h; simp at h
            | some r =>
                rw [hr] at h
                simp at h
                subst h
                refine List.Forall₂.cons ⟨rfl, fun hl => ?_⟩ (ih.2 r hr)
                rw [hl, fieldResult_none_arg] at hf
                exact (Option.some_injective _ hf).symm

/-- The restriction of a raw mapping to a given set of field names, keeping
order: what the claim calls the restriction of the raw value to the contract's
field names. -/
def restrictKeys (kvs : List (String × JValue)) (names : List String) :
    List (String × JValue) :=
  kvs.filter (fun p => decide (p.1 ∈ names))

/-- Splitting the restriction over the head of the raw mapping. -/
theorem restrictKeys_cons (k : String) (v : JValue) (rest : List (String × JValue))
    (names : List String) :
    restrictKeys ((k, v) :: rest) names =
      if k ∈ names then (k, v) :: restrictKeys rest names else restrictKeys rest names := by
  simp [restrictKeys, List.filter_cons]

/-- Looking up a kept name is unchanged by the restriction. -/
theorem lookupKey_restrict (n : String) (names : List String)
    (kvs : List (String × JValue)) (h : n ∈ names) :
    lookupKey n (restrictKeys kvs names) = lookupKey n kvs := by
  induction kvs with
  | nil => rfl
  | cons p rest ih =>
      obtain ⟨k, v⟩ := p
      rw [restrictKeys_cons]
      by_cases hk : k ∈ names
      · rw [if_pos hk]
        by_cases he : k = n
        · subst he
          simp [lookupKey]
        · simp [lookupKey, he, ih]
      · rw [if_neg hk]
        have hne : k ≠ n := fun he => hk (he ▸ h)
        simp [lookupKey, hne, ih]

/-- Validation reads the raw mapping only through lookups of declared names. -/
theorem validateFields_congr_lookup (fs : List (String × FieldType))
    (kvs1 kvs2 : List (String × JValue))
    (h : ∀ n ∈ fs.map Prod.fst, lookupKey n kvs1 = lookupKey n kvs2) :
    validateFields fs kvs1 = validateFields fs kvs2 := by
  induction fs with
  | nil => simp [validateFields]
  | cons p rest ih =>
      obtain ⟨n, t⟩ := p
      rw [validateFields]
      conv_rhs => rw [validateFields]
      rw [h n (by simp), ih (fun m hm => h m (by simp [hm]))]

/-- C5: keys of the raw value that name no field of the contract are never
consulted — validating the raw value gives exactly the same result, success or
failure, validated value included, as validating its restriction to the
contract's field names. Unknown keys can therefore never cause a failure. -/
theorem validateFields_ignores_unknown_keys (fs : List (String × FieldType))
    (kvs : List (String × JValue)) :
    validateFields fs kvs = validateFields fs (restrictKeys kvs (fs.map Prod.fst)) :=
  validateFields_congr_lookup fs kvs _
    (fun n hn => (lookupKey_restrict n (fs.map Prod.fst) kvs hn).symm)


/-- A present string value is validated against the declared type. -/
theorem fieldResult_str (t : FieldType) (s : String) :
    fieldResult t (some (JValue.str s)) = validateType t (JValue.str s) :=
  fieldResult.eq_3 t (JValue.str s) (fun hc => JValue.noConfusion hc)

/-- A present array value is validated against the declared type. -/
theorem fieldResult_arr (t : FieldType) (xs : List JValue) :
    fieldResult t (some (JValue.arr xs)) = validateType t (JValue.arr xs) :=
  fieldResult.eq_3 t (JValue.arr xs) (fun hc => JValue.noConfusion hc)

/-- The scenario tree: one top-level Text field named case_reason and one
repeated Object field named holdings containing Text fields category and text. -/
def scenarioTree : List (String × SchemaNode) :=
  [("id1", SchemaNode.mk "id1" "case_reason" FieldKind.text false []),
   ("id2", SchemaNode.mk "id2" "holdings" FieldKind.object true
      [("id3", SchemaNode.mk "id3" "category" FieldKind.text false []),
       ("id4", SchemaNode.mk "id4" "text" FieldKind.text false [])])]

/-- The scenario raw value from the spec. -/
def scenarioRaw : List (String × JValue) :=
  [("case_reason", JValue.str "Bankruptcy"),
   ("holdings",
    JValue.arr [JValue.obj [("category", JValue.str "Law"), ("text", JValue.str "X")]])]

/-- C6: compiling the scenario tree yields exactly two top-level fields —
case_reason a string and holdings a sequence of objects with string fields
category and text — and validating the spec's raw value against that contract
succeeds, returning exactly the raw value in contract field order. -/
theorem scenario_compiles_and_validates :
    generate_pydantic_model "DynamicOutputModel" scenarioTree =
      FieldType.model "DynamicOutputModel"
        [("case_reason", FieldType.str),
         ("holdings",
          FieldType.list (FieldType.model "DynamicOutputModel_holdings"
            [("category", FieldType.str), ("text", FieldType.str)]))] ∧
    validateFields (genFieldDefs "DynamicOutputModel" [] scenarioTree) scenarioRaw =
      some [("case_reason", JValue.str "Bankruptcy"),
            ("holdings",
             JValue.arr [JValue.obj
               [("category", JValue.str "Law"), ("text", JValue.str "X")]])] := by
  have hc : genFieldDefs "DynamicOutputModel" [] scenarioTree =
      [("case_reason", FieldType.str),
       ("holdings",
        FieldType.list (FieldType.model "DynamicOutputModel_holdings"
          [("category", FieldType.str), ("text", FieldType.str)]))] := by
    simp [genFieldDefs, compiledFieldType, type_mapping, dictInsert, scenarioTree,
          SchemaNode.name]
  constructor
  · rw [generate_pydantic_model, hc]
  · rw [hc, validateFields.eq_2,
        show lookupKey "case_reason" scenarioRaw = some (JValue.str "Bankruptcy") from rfl,
        fieldResult_str, validateType.eq_1,
        validateFields.eq_2,
        show lookupKey "holdings" scenarioRaw =
          some (JValue.arr [JValue.obj [("category", JValue.str "Law"),
            ("text", JValue.str "X")]]) from rfl,
        fieldResult_arr, validateType.eq_3,
        validateList.eq_2, validateType.eq_4,
        validateFields.eq_2,
        show lookupKey "category" [("category", JValue.str "Law"), ("text", JValue.str "X")] =
          some (JValue.str "Law") from rfl,
        fieldResult_str, validateType.eq_1,
        validateFields.eq_2,
        show lookupKey "text" [("category", JValue.str "Law"), ("text", JValue.str "X")] =
          some (JValue.str "X") from rfl,
        fieldResult_str, validateType.eq_1,
        validateFields.eq_1, validateList.eq_1, validateFields.eq_1]
    rfl

/-- One step of dict assignment. -/
theorem dictInsert_cons (k2 k : String) (v2 v : α) (rest : List (String × α)) :
    dictInsert ((k2, v2) :: rest) k v =
      if k2 = k then (k, v) :: rest else (k2, v2) :: dictInsert rest k v := rfl

/-- One step of dict lookup. -/
theorem lookupKey_cons (n k2 : String) (v : α) (rest : List (String × α)) :
    lookupKey n ((k2, v) :: rest) = if k2 = n then some v else lookupKey n rest := rfl

/-- The keys after a dict assignment are the old keys plus the assigned one. -/
theorem mem_keys_dictInsert (acc : List (String × α)) (k n : String) (v : α) :
    n ∈ (dictInsert acc k v).map Prod.fst ↔ n ∈ acc.map Prod.fst ∨ n = k := by
  induction acc with
  | nil => simp [dictInsert]
  | cons p rest ih =>
      obtain ⟨k2, v2⟩ := p
      rw [dictInsert_cons]
      by_cases h : k2 = k
      · subst h
        rw [if_pos rfl]
        simp
        tauto
      · rw [if_neg h]
        simp [ih]
        tauto

/-- Looking up the just-assigned key gives the assigned value. -/
theorem lookupKey_dictInsert_self (acc : List (String × α)) (k : String) (v : α) :
    lookupKey k (dictInsert acc k v) = some v := by
  induction acc with
  | nil => simp [dictInsert, lookupKey]
  | cons p rest ih =>
      obtain ⟨k2, v2⟩ := p
      rw [dictInsert_cons]
      by_cases h : k2 = k
      · subst h
        rw [if_pos rfl, lookupKey_cons, if_pos rfl]
      · rw [if_neg h, lookupKey_cons, if_neg h]
        exact ih

/-- A dict assignment leaves every other key's lookup unchanged. -/
theorem lookupKey_dictInsert_other (acc : List (String × α)) (k n : String) (v : α)
    (h : n ≠ k) : lookupKey n (dictInsert acc k v) = lookupKey n acc := by
  induction acc with
  | nil => simp [dictInsert, lookupKey, h.symm]
  | cons p rest ih =>
      obtain ⟨k2, v2⟩ := p
      rw [dictInsert_cons, lookupKey_cons]
      by_cases hk : k2 = k
      · subst hk
        rw [if_pos rfl, lookupKey_cons, if_neg h.symm, if_neg h.symm]
      · rw [if_neg hk, lookupKey_cons]
        by_cases he : k2 = n
        · rw [if_pos he, if_pos he]
        · rw [if_neg he, if_neg he]
          exact ih

/-- A dict assignment never introduces a duplicate key. -/
theorem nodup_keys_dictInsert (acc : List (String × α)) (k : String) (v : α)
    (h : (acc.map Prod.fst).Nodup) : ((dictInsert acc k v).map Prod.fst).Nodup := by
  induction acc with
  | nil => simp [dictInsert]
  | cons p rest ih =>
      obtain ⟨k2, v2⟩ := p
      rw [List.map_cons, List.nodup_cons] at h
      rw [dictInsert_cons]
      by_cases hk : k2 = k
      · subst hk
        rw [if_pos rfl, List.map_cons, List.nodup_cons]
        exact h
      · rw [if_neg hk, List.map_cons, List.nodup_cons]
        refine ⟨fun hmem => ?_, ih h.2⟩
        rcases (mem_keys_dictInsert rest k k2 v).1 hmem with hm | he
        · exact h.1 hm
        · exact hk he

/-- The last node of a sibling list carrying a given name: the node whose
compiled type wins when several siblings share a name. -/
def lastNodeNamed (n : String) : List (String × SchemaNode) → Option SchemaNode
  | [] => none
  | (_, fd) :: rest =>
      match lastNodeNamed n rest with
      | some x => some x
      | none => if fd.name = n then some fd else none

/-- A name is a key of the compiled field dictionary exactly when it is
non-empty and some node of the sibling list carries it (or it was already in
the accumulator). -/
theorem mem_keys_genFieldDefs (mn : String) (l : List (String × SchemaNode)) :
    ∀ (acc : List (String × FieldType)) (n : String),
    (n ∈ (genFieldDefs mn acc l).map Prod.fst ↔
      n ∈ acc.map Prod.fst ∨ (n ≠ "" ∧ ∃ p ∈ l, (Prod.snd p).name = n)) := by
  induction l with
  | nil =>
      intro acc n
      simp [genFieldDefs]
  | cons p rest ih =>
      intro acc n
      obtain ⟨k, fd⟩ := p
      rw [genFieldDefs]
      by_cases hname : fd.name = ""
      · rw [if_pos hname, ih]
        constructor
        · rintro (h | ⟨hne, p2, hp2, hnm⟩)
          · exact Or.inl h
          · exact Or.inr ⟨hne, p2, List.mem_cons_of_mem _ hp2, hnm⟩
        · rintro (h | ⟨hne, p2, hp2, hnm⟩)
          · exact Or.inl h
          · rcases List.mem_cons.1 hp2 with h1 | hp2
            · subst h1
              exact absurd (hnm.symm.trans hname) hne
            · exact Or.inr ⟨hne, p2, hp2, hnm⟩
      · rw [if_neg hname, ih, mem_keys_dictInsert]
        constructor
        · rintro ((h | he) | ⟨hne, p2, hp2, hnm⟩)
          · exact Or.inl h
          · exact Or.inr ⟨fun h0 => hname (he.symm.trans h0),
              (k, fd), List.mem_cons_self _ _, he.symm⟩
          · exact Or.inr ⟨hne, p2, List.mem_cons_of_mem _ hp2, hnm⟩
        · rintro (h | ⟨hne, p2, hp2, hnm⟩)
          · exact Or.inl (Or.inl h)
          · rcases List.mem_cons.1 hp2 with h1 | hp2
            · subst h1
              exact Or.inl (Or.inr hnm.symm)
            · exact Or.inr ⟨hne, p2, hp2, hnm⟩

/-- The compiled field dictionary never repeats a key: it is a dict. -/
theorem nodup_keys_genFieldDefs (mn : String) (l : List (String × SchemaNode)) :
    ∀ acc : List (String × FieldType),
    (acc.map Prod.fst).Nodup → ((genFieldDefs mn acc l).map Prod.fst).Nodup := by
  induction l with
  | nil =>
      intro acc h
      rw [genFieldDefs]
      exact h
  | cons p rest ih =>
      intro acc h
      obtain ⟨k, fd⟩ := p
      rw [genFieldDefs]
      by_cases hname : fd.name = ""
      · rw [if_pos hname]
        exact ih acc h
      · rw [if_neg hname]
        exact ih _ (nodup_keys_dictInsert acc fd.name (compiledFieldType mn fd) h)

/-- Looking a non-empty name up in the compiled field dictionary gives the
compiled type of the last sibling carrying that name, falling back to the
accumulator. -/
theorem lookupKey_genFieldDefs (mn : String) (l : List (String × SchemaNode)) :
    ∀ (acc : List (String × FieldType)) (n : String), n ≠ "" →
    lookupKey n (genFieldDefs mn acc l) =
      (match lastNodeNamed n l with
       | some fd => some (compiledFieldType mn fd)
       | none => lookupKey n acc) := by
  induction l with
  | nil =>
      intro acc n hn
      rw [genFieldDefs, lastNodeNamed]
  | cons p rest ih =>
      intro acc n hn
      obtain ⟨k, fd⟩ := p
      rw [genFieldDefs, lastNodeNamed]
      by_cases hname : fd.name = ""
      · rw [if_pos hname, ih acc n hn]
        cases hl : lastNodeNamed n rest with
        | some x => simp [hl]
        | none =>
            have hne : ¬ (fd.name = n) := fun he => hn (he.symm.trans hname)
            simp [hl, hne]
      · rw [if_neg hname, ih _ n hn]
        cases hl : lastNodeNamed n rest with
        | some x => simp [hl]
        | none =>
            by_cases he : fd.name = n
            · subst he
              simp [hl, lookupKey_dictInsert_self]
            · simp [hl, he, lookupKey_dictInsert_other acc fd.name n _ (fun h0 => he h0.symm)]

/-- C3 counterexample: a node whose name is a single space — only whitespace,
so empty after trimming — is not excluded: compiling a tree holding just that
node produces a contract with one field, named by the whitespace string. The
code's test `if not field_name` only catches the empty string. -/
theorem whitespace_name_compiled_cex :
    " ".toList.all Char.isWhitespace = true ∧
    (" " = "") = False ∧
    genFieldDefs "DynamicOutputModel" []
      [("i1", SchemaNode.mk "i1" " " FieldKind.text false [])] =
      [(" ", FieldType.str)] := by
  refine ⟨by decide, by simp, ?_⟩
  simp [genFieldDefs, compiledFieldType, type_mapping, dictInsert, SchemaNode.name]

/-- C3 amended: compilation excludes exactly the nodes whose name is the empty
string, with no whitespace trimming: a name appears as a field of the compiled
contract precisely when it is non-empty (whitespace-only included) and some
node of the list carries it; compilation itself is total, so no unnamed node
can make it fail. -/
theorem compile_excludes_exactly_empty_names (mn : String)
    (l : List (String × SchemaNode)) (n : String) :
    n ∈ (genFieldDefs mn [] l).map Prod.fst ↔
      n ≠ "" ∧ ∃ p ∈ l, (Prod.snd p).name = n := by
  simpa using mem_keys_genFieldDefs mn l [] n

/-- C10: when sibling nodes share a non-empty name, compilation does not fail
and the compiled dictionary binds that name exactly once — the key list has no
duplicate — to the compiled type of the last such sibling in insertion order;
the earlier same-named siblings contribute nothing. -/
theorem duplicate_names_last_wins (mn : String) (l : List (String × SchemaNode))
    (n : String) (hn : n ≠ "") :
    lookupKey n (genFieldDefs mn [] l) =
      (lastNodeNamed n l).map (compiledFieldType mn) ∧
    ((genFieldDefs mn [] l).map Prod.fst).Nodup := by
  refine ⟨?_, nodup_keys_genFieldDefs mn l [] (by simp)⟩
  rw [lookupKey_genFieldDefs mn l [] n hn]
  cases hl : lastNodeNamed n l with
  | some fd => simp
  | none => simp [lookupKey]

/-- Two sibling nodes named x: a Text one first, a Number one second. -/
def dupTreeC10 : List (String × SchemaNode) :=
  [("i1", SchemaNode.mk "i1" "x" FieldKind.text false []),
   ("i2", SchemaNode.mk "i2" "x" FieldKind.number false [])]

/-- C10 witness: on the concrete two-sibling tree both named x, the compiled
contract binds x once, to integer — the type of the second (last) sibling. -/
theorem duplicate_names_last_wins_witness :
    lookupKey "x" (genFieldDefs "M" [] dupTreeC10) = some FieldType.int ∧
    ((genFieldDefs "M" [] dupTreeC10).map Prod.fst).Nodup := by
  have h := duplicate_names_last_wins "M" dupTreeC10 "x" (by decide)
  refine ⟨?_, h.2⟩
  rw [h.1]
  simp [dupTreeC10, lastNodeNamed, compiledFieldType, type_mapping, SchemaNode.name]
